import Mathlib

/-!
Verification of the btShieldML scanner core against its specification.

The Go sources are shallowly embedded: pure functions become Lean
functions, Go `float64` values that only ever hold exact decimal data
become `ℚ`, genuinely real-valued computations (entropy, sigmoid) are
modelled over `ℝ`, Go `nil`-able pointers and slices become `Option`,
and fallible functions return `Except`.
-/

/- ### Risk levels (src/pkg/types/types.go) -/

/-- `RiskLevel` from pkg/types/types.go: `iota` assigns codes 0..5. -/
inductive RiskLevel where
  | RiskUnknown
  | RiskNone
  | RiskLow
  | RiskMedium
  | RiskHigh
  | RiskCritical
deriving DecidableEq, Repr

/-- The integer code of a risk level (the `iota` value in types.go). -/
def RiskLevel.code : RiskLevel → Nat
  | .RiskUnknown => 0
  | .RiskNone => 1
  | .RiskLow => 2
  | .RiskMedium => 3
  | .RiskHigh => 4
  | .RiskCritical => 5

/- ### Findings (src/pkg/types/types.go) -/

/-- `types.Finding`: analyzer name, description, risk, confidence. -/
structure Finding where
  analyzerName : String
  description : String
  risk : RiskLevel
  confidence : ℚ
deriving DecidableEq, Repr

/- ### The AST value model (src/internal/analyzers/static/hash.go)

The parser returns heterogeneous JSON (`interface\x7b\x7d` in Go): nil, a
string, a number, a boolean, an `astNode` (kind/flags/lineno/children),
an ordered array, or a string-keyed map.  Go maps are unordered and the
source sorts keys before traversing, so a map is embedded as an
association list already in sorted key order. -/

mutual

inductive AstVal where
  | nullVal : AstVal
  | strVal (s : String) : AstVal
  | numVal (q : ℚ) : AstVal
  | boolVal (b : Bool) : AstVal
  | node (kind : Int) (flags : Int) (lineno : Int) (children : AstVal) : AstVal
  | arr (items : AstList) : AstVal
  | mapv (entries : AstMap) : AstVal

inductive AstList where
  | nil : AstList
  | cons (hd : AstVal) (tl : AstList) : AstList

inductive AstMap where
  | nil : AstMap
  | cons (key : String) (val : AstVal) (tl : AstMap) : AstMap

end

/- ### Statistical features and the feature set
   (src/internal/features/*.go) -/

/-- `features.StatisticalFeatures`: the eight scalar features.  The Go
fields are `float64`; every stored value is a rounded finite decimal, so
they are embedded as rationals. -/
structure StatisticalFeatures where
  LM : ℚ
  LVC : ℚ
  WM : ℚ
  WVC : ℚ
  SR : ℚ
  TR : ℚ
  SPL : ℚ
  IE : ℚ
deriving DecidableEq, Repr

/-- `features.FeatureSet`: nil-able slices and pointers become `Option`. -/
structure FeatureSet where
  statistical : Option StatisticalFeatures
  astWords : Option (List String)
  astOpSequence : Option (List (List Int))
  rawAst : Option AstVal
  callable : Bool

/- ### The scorer (src/unnamed/part_005, package scoring) -/

/-- The four match flags tracked by `CalculateScore`'s findings loop. -/
structure ScoreFlags where
  hasRegexMatch : Bool
  hasYaraMatch : Bool
  highConfidencePrediction : Bool
  hasStatisticalAnomaly : Bool
deriving DecidableEq, Repr

/-- One iteration of the `switch finding.AnalyzerName` loop in
`CalculateScore`. -/
def updateFlags (fl : ScoreFlags) (f : Finding) : ScoreFlags :=
  if f.analyzerName = "regex" then { fl with hasRegexMatch := true }
  else if f.analyzerName = "yara" then { fl with hasYaraMatch := true }
  else if f.analyzerName = "svm_prosses" then
    if f.confidence > 91 / 100 then { fl with highConfidencePrediction := true } else fl
  else if f.analyzerName = "statistical" then { fl with hasStatisticalAnomaly := true }
  else fl

/-- The score accumulation of `CalculateScore` (rules 1-6): scores added
in source order, then capped at 5. -/
def scoreOfFlags (fl : ScoreFlags) (hasCallable : Bool) : Nat :=
  let s1 := if fl.hasRegexMatch then 1 else 0
  let s2 := s1 + (if fl.hasYaraMatch then 1 else 0)
  let s3 := s2 + (if fl.hasRegexMatch && fl.hasYaraMatch then 2 else 0)
  let s4 := s3 + (if hasCallable && fl.highConfidencePrediction then 2 else 0)
  let s5 := s4 + (if hasCallable && fl.hasStatisticalAnomaly then 2 else 0)
  if s5 > 5 then 5 else s5

/-- The final `switch` of `CalculateScore` mapping the score to a risk. -/
def riskOfScore (totalScore : Nat) : RiskLevel :=
  if totalScore ≥ 5 then .RiskCritical
  else if totalScore ≥ 4 then .RiskHigh
  else if totalScore ≥ 3 then .RiskMedium
  else if totalScore ≥ 1 then .RiskLow
  else .RiskNone

/-- `scoring.CalculateScore` (src/unnamed/part_005).  The Go parameter
`featureSet *features.FeatureSet` is nil-able, hence `Option`. -/
def CalculateScore (findings : List Finding) (featureSet : Option FeatureSet) : RiskLevel :=
  if findings.isEmpty then .RiskNone
  else
    let fl := findings.foldl updateFlags ⟨false, false, false, false⟩
    let hasCallable := match featureSet with
      | some fs => fs.callable
      | none => false
    riskOfScore (scoreOfFlags fl hasCallable)

/- ### Spec-side scorer (claims C1, C9), written from the spec's words -/

/-- The score described by the specification (section 4.5): +1 for a
regex finding, +1 for a yara finding, +2 more when both are present,
+2 when callable and a high-confidence svm finding exists, +2 when
callable and a statistical finding exists. -/
def specScore (findings : List Finding) (callable : Bool) : Nat :=
  (if ∃ f ∈ findings, f.analyzerName = "regex" then 1 else 0)
    + (if ∃ f ∈ findings, f.analyzerName = "yara" then 1 else 0)
    + (if (∃ f ∈ findings, f.analyzerName = "regex") ∧ (∃ f ∈ findings, f.analyzerName = "yara")
        then 2 else 0)
    + (if callable = true ∧ ∃ f ∈ findings, f.analyzerName = "svm_prosses" ∧ f.confidence > 91 / 100
        then 2 else 0)
    + (if callable = true ∧ ∃ f ∈ findings, f.analyzerName = "statistical" then 2 else 0)

/-- The score-to-risk mapping described by the specification:
0 to None, 1-2 to Low, 3 to Medium, 4 to High, at least 5 to Critical. -/
def specRiskOfScore (score : Nat) : RiskLevel :=
  if score = 0 then .RiskNone
  else if score ≤ 2 then .RiskLow
  else if score = 3 then .RiskMedium
  else if score = 4 then .RiskHigh
  else .RiskCritical

/- ### Helper lemmas for the scorer -/

theorem updateFlags_hasRegexMatch (fl : ScoreFlags) (f : Finding) :
    (updateFlags fl f).hasRegexMatch
      = (fl.hasRegexMatch || decide (f.analyzerName = "regex")) := by
  unfold updateFlags
  split_ifs with h1 h2 h3 h4 h5 <;> simp_all

theorem updateFlags_hasYaraMatch (fl : ScoreFlags) (f : Finding) :
    (updateFlags fl f).hasYaraMatch
      = (fl.hasYaraMatch || decide (f.analyzerName = "yara")) := by
  unfold updateFlags
  split_ifs with h1 h2 h3 h4 h5 <;> simp_all

theorem updateFlags_highConfidencePrediction (fl : ScoreFlags) (f : Finding) :
    (updateFlags fl f).highConfidencePrediction
      = (fl.highConfidencePrediction
          || decide (f.analyzerName = "svm_prosses" ∧ f.confidence > 91 / 100)) := by
  unfold updateFlags
  split_ifs with h1 h2 h3 h4 h5 <;> simp_all

theorem updateFlags_hasStatisticalAnomaly (fl : ScoreFlags) (f : Finding) :
    (updateFlags fl f).hasStatisticalAnomaly
      = (fl.hasStatisticalAnomaly || decide (f.analyzerName = "statistical")) := by
  unfold updateFlags
  split_ifs with h1 h2 h3 h4 h5 <;> simp_all

/-- The findings loop of `CalculateScore` computes exactly the four
`List.any` tests, each disjoined with the incoming flag. -/
theorem foldl_updateFlags (l : List Finding) (fl : ScoreFlags) :
    l.foldl updateFlags fl
      = ⟨fl.hasRegexMatch || l.any (fun f => decide (f.analyzerName = "regex")),
         fl.hasYaraMatch || l.any (fun f => decide (f.analyzerName = "yara")),
         fl.highConfidencePrediction
           || l.any (fun f => decide (f.analyzerName = "svm_prosses" ∧ f.confidence > 91 / 100)),
         fl.hasStatisticalAnomaly || l.any (fun f => decide (f.analyzerName = "statistical"))⟩ := by
  induction l generalizing fl with
  | nil => simp
  | cons f t ih =>
    simp only [List.foldl_cons, List.any_cons, ih]
    rw [updateFlags_hasRegexMatch, updateFlags_hasYaraMatch,
      updateFlags_highConfidencePrediction, updateFlags_hasStatisticalAnomaly]
    simp [Bool.or_assoc]

theorem any_decide_eq (l : List Finding) (p : Finding → Prop) [DecidablePred p] :
    (l.any fun f => decide (p f)) = decide (∃ f ∈ l, p f) := by
  rw [Bool.eq_iff_iff]
  simp [List.any_eq_true]

/-- Bridge between the code's capped flag score plus final switch and the
spec's additive score plus table, as a function of the five booleans. -/
theorem riskOfFlags_eq_specRisk (a b c d e : Bool) :
    riskOfScore (scoreOfFlags ⟨a, b, c, d⟩ e)
      = specRiskOfScore
          (min ((if a then 1 else 0) + (if b then 1 else 0)
            + (if a ∧ b then 2 else 0) + (if e = true ∧ c then 2 else 0)
            + (if e = true ∧ d then 2 else 0)) 5) := by
  cases a <;> cases b <;> cases c <;> cases d <;> cases e <;> rfl

/-- Normal form of `CalculateScore`: the code equals the spec's additive
score, clamped to 5, run through the spec's mapping table. -/
theorem calculateScore_eq (findings : List Finding) (featureSet : Option FeatureSet) :
    CalculateScore findings featureSet
      = specRiskOfScore
          (min (specScore findings
            (match featureSet with | some fs => fs.callable | none => false)) 5) := by
  unfold CalculateScore specScore
  cases hl : findings.isEmpty
  · rw [if_neg (by simp [hl])]
    rw [foldl_updateFlags, riskOfFlags_eq_specRisk,
      any_decide_eq, any_decide_eq, any_decide_eq, any_decide_eq]
    simp only [Bool.false_or, decide_eq_true_eq]
  · have : findings = [] := List.isEmpty_iff.mp hl
    subst this
    simp [specRiskOfScore]

/-- C1 -- The scorer computes the integer score described by the spec
(+1 regex, +1 yara, +2 when both, +2 callable with high-confidence
svm_prosses finding, +2 callable with statistical finding), clamps it to
at most 5 and maps 0 to None, 1-2 to Low, 3 to Medium, 4 to High, and at
least 5 to Critical, for every list of findings and every feature set. -/
theorem scorer_matches_spec (findings : List Finding) (fs : FeatureSet) :
    CalculateScore findings (some fs)
      = specRiskOfScore (min (specScore findings fs.callable) 5) := by
  exact calculateScore_eq findings (some fs)

/-- Monotonicity of the bool-level score in the four finding flags. -/
theorem specRisk_mono_flags :
    ∀ a a' b b' c c' d d' e : Bool, a ≤ a' → b ≤ b' → c ≤ c' → d ≤ d' →
    (specRiskOfScore (min ((if a = true then 1 else 0) + (if b = true then 1 else 0)
        + (if a = true ∧ b = true then 2 else 0) + (if e = true ∧ c = true then 2 else 0)
        + (if e = true ∧ d = true then 2 else 0)) 5)).code
      ≤ (specRiskOfScore (min ((if a' = true then 1 else 0) + (if b' = true then 1 else 0)
        + (if a' = true ∧ b' = true then 2 else 0) + (if e = true ∧ c' = true then 2 else 0)
        + (if e = true ∧ d' = true then 2 else 0)) 5)).code := by
  decide

theorem bool_le_or (x y : Bool) : x ≤ (x || y) := by
  cases x <;> cases y <;> decide

/-- `specScore` in terms of the five booleans computed by `List.any`. -/
theorem specScore_eq_bools (l : List Finding) (c : Bool) :
    specScore l c
      = (if (l.any fun f => decide (f.analyzerName = "regex")) = true then 1 else 0)
        + (if (l.any fun f => decide (f.analyzerName = "yara")) = true then 1 else 0)
        + (if (l.any fun f => decide (f.analyzerName = "regex")) = true
             ∧ (l.any fun f => decide (f.analyzerName = "yara")) = true then 2 else 0)
        + (if c = true
             ∧ (l.any fun f =>
                 decide (f.analyzerName = "svm_prosses" ∧ f.confidence > 91 / 100)) = true
            then 2 else 0)
        + (if c = true
             ∧ (l.any fun f => decide (f.analyzerName = "statistical")) = true
            then 2 else 0) := by
  unfold specScore
  rw [any_decide_eq, any_decide_eq, any_decide_eq, any_decide_eq]
  simp only [decide_eq_true_eq]

/-- The integer score computed by the scorer (flag accumulation plus
capped sum) is monotone in the four match flags. -/
theorem scoreOfFlags_mono :
    ∀ a a' b b' c c' d d' e : Bool, a ≤ a' → b ≤ b' → c ≤ c' → d ≤ d' →
    scoreOfFlags ⟨a, b, c, d⟩ e ≤ scoreOfFlags ⟨a', b', c', d'⟩ e := by
  decide

/-- C9 -- The scorer is monotone in the findings: appending one finding
never yields a smaller integer score (the capped score computed by
`CalculateScore` over the accumulated flags), and hence never a lower
overall risk level, than scoring the original list, for every feature
set (present or absent). -/
theorem scorer_monotone_append (findings : List Finding) (f : Finding)
    (featureSet : Option FeatureSet) :
    scoreOfFlags (findings.foldl updateFlags ⟨false, false, false, false⟩)
        (match featureSet with | some fs => fs.callable | none => false)
      ≤ scoreOfFlags ((findings ++ [f]).foldl updateFlags ⟨false, false, false, false⟩)
        (match featureSet with | some fs => fs.callable | none => false)
    ∧ (CalculateScore findings featureSet).code
      ≤ (CalculateScore (findings ++ [f]) featureSet).code := by
  constructor
  · rw [foldl_updateFlags, foldl_updateFlags]
    refine scoreOfFlags_mono _ _ _ _ _ _ _ _ _ ?_ ?_ ?_ ?_ <;>
      simp only [Bool.false_or, List.any_append] <;> exact bool_le_or _ _
  rw [calculateScore_eq, calculateScore_eq]
  have hmono := specRisk_mono_flags
    (findings.any fun f => decide (f.analyzerName = "regex"))
    ((findings ++ [f]).any fun f => decide (f.analyzerName = "regex"))
    (findings.any fun f => decide (f.analyzerName = "yara"))
    ((findings ++ [f]).any fun f => decide (f.analyzerName = "yara"))
    (findings.any fun f => decide (f.analyzerName = "svm_prosses" ∧ f.confidence > 91 / 100))
    ((findings ++ [f]).any fun f =>
      decide (f.analyzerName = "svm_prosses" ∧ f.confidence > 91 / 100))
    (findings.any fun f => decide (f.analyzerName = "statistical"))
    ((findings ++ [f]).any fun f => decide (f.analyzerName = "statistical"))
    (match featureSet with | some fs => fs.callable | none => false)
    (by rw [List.any_append]; exact bool_le_or _ _)
    (by rw [List.any_append]; exact bool_le_or _ _)
    (by rw [List.any_append]; exact bool_le_or _ _)
    (by rw [List.any_append]; exact bool_le_or _ _)
  rw [specScore_eq_bools, specScore_eq_bools]
  exact hmono

/- ### Words and callable flag (hash.go, GetWordsAndCallable)

`GetWordsAndCallable` traverses the tree once with two side effects: it
appends to `words` the string under the `name` key of any node whose
children form a map carrying one, and it sets `callable` when a node's
kind is one of 269, 265, 515, 768, 769.  Maps that encode `astNode`
values are already promoted to `AstVal.node` in this embedding (the
source's `transformAstNode`), and plain maps are traversed in sorted key
order, which is how the association lists of `AstMap` are stored. -/

/-- Association-list lookup, the embedding of Go map indexing. -/
def lookupMap : AstMap → String → Option AstVal
  | .nil, _ => none
  | .cons k v t, key => if k = key then some v else lookupMap t key

/-- The `kindChecker` closure of `GetWordsAndCallable`: kinds 269
(AST_INCLUDE_OR_EVAL), 265 (AST_SHELL_EXEC), 515 (AST_CALL), 768
(AST_METHOD_CALL), 769 (AST_STATIC_CALL). -/
def kindHit (k : Int) : Bool :=
  decide (k = 269) || decide (k = 265) || decide (k = 515)
    || decide (k = 768) || decide (k = 769)

/-- The word contributed by a node: the string under the `name` key when
the node's children form a map carrying one (the `nameChecker` path). -/
def nodeNameWords : AstVal → List String
  | .mapv entries =>
    match lookupMap entries "name" with
    | some (.strVal s) => [s]
    | _ => []
  | _ => []

mutual

/-- `checkNameAndKind` on a single value, threading the accumulated
`(words, callable)` pair. -/
def checkVal : AstVal → List String × Bool → List String × Bool
  | .node k _ _ ch, acc => checkVal ch (acc.1 ++ nodeNameWords ch, acc.2 || kindHit k)
  | .arr items, acc => checkList items acc
  | .mapv entries, acc => checkMap entries acc
  | _, acc => acc

/-- `checkNameAndKind` over the items of an array. -/
def checkList : AstList → List String × Bool → List String × Bool
  | .nil, acc => acc
  | .cons hd tl, acc => checkList tl (checkVal hd acc)

/-- `checkNameAndKind` over the (sorted) entries of a plain map. -/
def checkMap : AstMap → List String × Bool → List String × Bool
  | .nil, acc => acc
  | .cons _ v tl, acc => checkMap tl (checkVal v acc)

end

/-- `PhpAstManager.GetWordsAndCallable`: run the traversal starting from
empty words and `callable = false`. -/
def GetWordsAndCallable (astRoot : AstVal) : List String × Bool :=
  checkVal astRoot ([], false)

/- ### Spec-side predicate for claim C5 -/

/-- The five callable kinds named by the specification. -/
def callableKinds : List Int := [265, 269, 515, 768, 769]

mutual

/-- The tree contains a node whose kind is one of the callable kinds
(specification, section 8, property 7). -/
inductive HasCallableNode : AstVal → Prop where
  | here (k flags lineno ch) (hk : k ∈ callableKinds) :
      HasCallableNode (.node k flags lineno ch)
  | child (k flags lineno ch) (h : HasCallableNode ch) :
      HasCallableNode (.node k flags lineno ch)
  | inArr (items) (h : HasCallableList items) : HasCallableNode (.arr items)
  | inMap (entries) (h : HasCallableMap entries) : HasCallableNode (.mapv entries)

inductive HasCallableList : AstList → Prop where
  | head (hd tl) (h : HasCallableNode hd) : HasCallableList (.cons hd tl)
  | tail (hd tl) (h : HasCallableList tl) : HasCallableList (.cons hd tl)

inductive HasCallableMap : AstMap → Prop where
  | head (k v tl) (h : HasCallableNode v) : HasCallableMap (.cons k v tl)
  | tail (k v tl) (h : HasCallableMap tl) : HasCallableMap (.cons k v tl)

end

mutual

/-- Boolean form of `HasCallableNode`. -/
def hasCallB : AstVal → Bool
  | .node k _ _ ch => kindHit k || hasCallB ch
  | .arr items => hasCallListB items
  | .mapv entries => hasCallMapB entries
  | _ => false

def hasCallListB : AstList → Bool
  | .nil => false
  | .cons hd tl => hasCallB hd || hasCallListB tl

def hasCallMapB : AstMap → Bool
  | .nil => false
  | .cons _ v tl => hasCallB v || hasCallMapB tl

end

theorem kindHit_iff (k : Int) : kindHit k = true ↔ k ∈ callableKinds := by
  simp only [kindHit, callableKinds, Bool.or_eq_true, decide_eq_true_eq,
    List.mem_cons, List.not_mem_nil, or_false]
  tauto

mutual

theorem snd_checkVal : ∀ (t : AstVal) (acc : List String × Bool),
    (checkVal t acc).2 = (acc.2 || hasCallB t)
  | .nullVal, acc => by simp [checkVal, hasCallB]
  | .strVal _, acc => by simp [checkVal, hasCallB]
  | .numVal _, acc => by simp [checkVal, hasCallB]
  | .boolVal _, acc => by simp [checkVal, hasCallB]
  | .node k fl ln ch, acc => by
    simp only [checkVal, hasCallB, snd_checkVal ch]
    cases acc.2 <;> cases kindHit k <;> simp
  | .arr items, acc => by simp only [checkVal, hasCallB, snd_checkList items]
  | .mapv entries, acc => by simp only [checkVal, hasCallB, snd_checkMap entries]

theorem snd_checkList : ∀ (l : AstList) (acc : List String × Bool),
    (checkList l acc).2 = (acc.2 || hasCallListB l)
  | .nil, acc => by simp [checkList, hasCallListB]
  | .cons hd tl, acc => by
    simp only [checkList, hasCallListB, snd_checkList tl, snd_checkVal hd, Bool.or_assoc]

theorem snd_checkMap : ∀ (m : AstMap) (acc : List String × Bool),
    (checkMap m acc).2 = (acc.2 || hasCallMapB m)
  | .nil, acc => by simp [checkMap, hasCallMapB]
  | .cons k v tl, acc => by
    simp only [checkMap, hasCallMapB, snd_checkMap tl, snd_checkVal v, Bool.or_assoc]

end

mutual

theorem hasCallB_of_prop : ∀ {t : AstVal}, HasCallableNode t → hasCallB t = true
  | _, .here k fl ln ch hk => by simp [hasCallB, (kindHit_iff k).mpr hk]
  | _, .child k fl ln ch h => by simp [hasCallB, hasCallB_of_prop h]
  | _, .inArr items h => by simp [hasCallB, hasCallListB_of_prop h]
  | _, .inMap entries h => by simp [hasCallB, hasCallMapB_of_prop h]

theorem hasCallListB_of_prop : ∀ {l : AstList}, HasCallableList l → hasCallListB l = true
  | _, .head hd tl h => by simp [hasCallListB, hasCallB_of_prop h]
  | _, .tail hd tl h => by simp [hasCallListB, hasCallListB_of_prop h]

theorem hasCallMapB_of_prop : ∀ {m : AstMap}, HasCallableMap m → hasCallMapB m = true
  | _, .head k v tl h => by simp [hasCallMapB, hasCallB_of_prop h]
  | _, .tail k v tl h => by simp [hasCallMapB, hasCallMapB_of_prop h]

end

mutual

theorem prop_of_hasCallB : ∀ (t : AstVal), hasCallB t = true → HasCallableNode t
  | .node k fl ln ch, h => by
    rcases Bool.or_eq_true_iff.mp (by simpa [hasCallB] using h) with hk | hch
    · exact .here k fl ln ch ((kindHit_iff k).mp hk)
    · exact .child k fl ln ch (prop_of_hasCallB ch hch)
  | .arr items, h => .inArr items (prop_of_hasCallListB items (by simpa [hasCallB] using h))
  | .mapv entries, h =>
    .inMap entries (prop_of_hasCallMapB entries (by simpa [hasCallB] using h))

theorem prop_of_hasCallListB : ∀ (l : AstList), hasCallListB l = true → HasCallableList l
  | .cons hd tl, h => by
    rcases Bool.or_eq_true_iff.mp (by simpa [hasCallListB] using h) with hh | ht
    · exact .head hd tl (prop_of_hasCallB hd hh)
    · exact .tail hd tl (prop_of_hasCallListB tl ht)

theorem prop_of_hasCallMapB : ∀ (m : AstMap), hasCallMapB m = true → HasCallableMap m
  | .cons k v tl, h => by
    rcases Bool.or_eq_true_iff.mp (by simpa [hasCallMapB] using h) with hh | ht
    · exact .head k v tl (prop_of_hasCallB v hh)
    · exact .tail k v tl (prop_of_hasCallMapB tl ht)

end

/-- C5 -- For every tree produced by the parser, the feature extractor's
callable flag is true if and only if the tree contains at least one node
whose kind is in 265, 269, 515, 768, 769. -/
theorem callable_iff_callable_kind (t : AstVal) :
    (GetWordsAndCallable t).2 = true ↔ HasCallableNode t := by
  rw [GetWordsAndCallable, snd_checkVal]
  simp only [Bool.false_or]
  exact ⟨prop_of_hasCallB t, hasCallB_of_prop⟩

/- ### The statistical analyzer (hash.go, StatisticalAnalyzer)

The Go threshold tables hold `float64` values where `math.NaN()` means
"no bound"; a NaN bound is embedded as `Option.none` (the only use of
NaN in the source is the `math.IsNaN` skip in `outOfRange`). -/

/-- One side of `StatisticalThresholds`: eight optional bounds. -/
structure StatisticalBounds where
  LM : Option ℚ
  LVC : Option ℚ
  WM : Option ℚ
  WVC : Option ℚ
  SR : Option ℚ
  TR : Option ℚ
  SPL : Option ℚ
  IE : Option ℚ
deriving DecidableEq, Repr

/-- `static.StatisticalThresholds`. -/
structure StatisticalThresholds where
  MinStat : StatisticalBounds
  MaxStat : StatisticalBounds
deriving DecidableEq, Repr

/-- `static.outOfRange`: below a non-NaN min or above a non-NaN max. -/
def outOfRange (x : ℚ) (mn mx : Option ℚ) : Bool :=
  (match mn with
    | some m => decide (x < m)
    | none => false)
  || (match mx with
    | some m => decide (x > m)
    | none => false)

/-- `static.IsStatisticalAbnormal`: some feature out of range. -/
def IsStatisticalAbnormal (sf : StatisticalFeatures) (std : StatisticalThresholds) : Bool :=
  outOfRange sf.LM std.MinStat.LM std.MaxStat.LM
    || outOfRange sf.LVC std.MinStat.LVC std.MaxStat.LVC
    || outOfRange sf.WM std.MinStat.WM std.MaxStat.WM
    || outOfRange sf.WVC std.MinStat.WVC std.MaxStat.WVC
    || outOfRange sf.SR std.MinStat.SR std.MaxStat.SR
    || outOfRange sf.TR std.MinStat.TR std.MaxStat.TR
    || outOfRange sf.SPL std.MinStat.SPL std.MaxStat.SPL
    || outOfRange sf.IE std.MinStat.IE std.MaxStat.IE

/-- The finding produced by `StatisticalAnalyzer.Analyze` (the formatted
description text is not modelled). -/
def statFinding : Finding :=
  { analyzerName := "statistical"
    description := "statistical anomaly with callable code structure"
    risk := .RiskMedium
    confidence := 7 / 10 }

/-- `StatisticalAnalyzer.Analyze`: Go returns `(finding, error)`; the
embedding returns `Except` with `.ok none` for `(nil, nil)`. -/
def statisticalAnalyze (thresholds : StatisticalThresholds) (content : List Nat)
    (featureSet : Option FeatureSet) : Except String (Option Finding) :=
  match featureSet with
  | none => if content.isEmpty then .ok none else .error "missing statistical features"
  | some fs =>
    match fs.statistical with
    | none => if content.isEmpty then .ok none else .error "missing statistical features"
    | some calculatedStats =>
      if IsStatisticalAbnormal calculatedStats thresholds && fs.callable then
        .ok (some statFinding)
      else .ok none

/- ### Spec-side abnormality (claim C6) -/

/-- The eight feature values of a vector, indexed as in the spec table. -/
def featVals (sf : StatisticalFeatures) : Fin 8 → ℚ
  | 0 => sf.LM
  | 1 => sf.LVC
  | 2 => sf.WM
  | 3 => sf.WVC
  | 4 => sf.SR
  | 5 => sf.TR
  | 6 => sf.SPL
  | 7 => sf.IE

/-- The min bound of each feature in a threshold configuration. -/
def minVals (std : StatisticalThresholds) : Fin 8 → Option ℚ
  | 0 => std.MinStat.LM
  | 1 => std.MinStat.LVC
  | 2 => std.MinStat.WM
  | 3 => std.MinStat.WVC
  | 4 => std.MinStat.SR
  | 5 => std.MinStat.TR
  | 6 => std.MinStat.SPL
  | 7 => std.MinStat.IE

/-- The max bound of each feature in a threshold configuration. -/
def maxVals (std : StatisticalThresholds) : Fin 8 → Option ℚ
  | 0 => std.MaxStat.LM
  | 1 => std.MaxStat.LVC
  | 2 => std.MaxStat.WM
  | 3 => std.MaxStat.WVC
  | 4 => std.MaxStat.SR
  | 5 => std.MaxStat.TR
  | 6 => std.MaxStat.SPL
  | 7 => std.MaxStat.IE

/-- A value lies strictly outside its `[min, max]` interval, where an
absent (NaN) bound skips that comparison (spec, section 4.4.3). -/
def StrictlyOutside (x : ℚ) (mn mx : Option ℚ) : Prop :=
  (∃ m, mn = some m ∧ x < m) ∨ (∃ m, mx = some m ∧ m < x)

theorem outOfRange_iff (x : ℚ) (mn mx : Option ℚ) :
    outOfRange x mn mx = true ↔ StrictlyOutside x mn mx := by
  unfold outOfRange StrictlyOutside
  cases mn <;> cases mx <;> simp [gt_iff_lt]

/-- C6 -- A statistical vector is abnormal iff some feature lies strictly
outside its `[min, max]` interval (an absent bound skips the comparison),
and the analyzer emits a Medium-risk finding with confidence 0.70 exactly
when the vector is abnormal and the callable flag is true, otherwise no
finding, for every vector and every threshold configuration. -/
theorem statistical_abnormal_and_finding (sf : StatisticalFeatures)
    (std : StatisticalThresholds) (fs : FeatureSet) (content : List Nat)
    (hsf : fs.statistical = some sf) :
    (IsStatisticalAbnormal sf std = true
      ↔ ∃ i : Fin 8, StrictlyOutside (featVals sf i) (minVals std i) (maxVals std i))
    ∧ (statisticalAnalyze std content (some fs)
        = if IsStatisticalAbnormal sf std = true ∧ fs.callable = true
          then .ok (some statFinding) else .ok none)
    ∧ statFinding.risk = .RiskMedium ∧ statFinding.confidence = 7 / 10 := by
  refine ⟨?_, ?_, rfl, rfl⟩
  · unfold IsStatisticalAbnormal
    constructor
    · intro h
      rcases Bool.or_eq_true_iff.mp h with h | h8
      rcases Bool.or_eq_true_iff.mp h with h | h7
      rcases Bool.or_eq_true_iff.mp h with h | h6
      rcases Bool.or_eq_true_iff.mp h with h | h5
      rcases Bool.or_eq_true_iff.mp h with h | h4
      rcases Bool.or_eq_true_iff.mp h with h | h3
      rcases Bool.or_eq_true_iff.mp h with h1 | h2
      · exact ⟨0, (outOfRange_iff _ _ _).mp h1⟩
      · exact ⟨1, (outOfRange_iff _ _ _).mp h2⟩
      · exact ⟨2, (outOfRange_iff _ _ _).mp h3⟩
      · exact ⟨3, (outOfRange_iff _ _ _).mp h4⟩
      · exact ⟨4, (outOfRange_iff _ _ _).mp h5⟩
      · exact ⟨5, (outOfRange_iff _ _ _).mp h6⟩
      · exact ⟨6, (outOfRange_iff _ _ _).mp h7⟩
      · exact ⟨7, (outOfRange_iff _ _ _).mp h8⟩
    · rintro ⟨i, hi⟩
      have hb := (outOfRange_iff (featVals sf i) (minVals std i) (maxVals std i)).mpr hi
      fin_cases i <;>
        simp only [featVals, minVals, maxVals] at hb <;>
        simp [hb]
  · unfold statisticalAnalyze
    simp only [hsf]
    by_cases hab : IsStatisticalAbnormal sf std = true
      <;> by_cases hc : fs.callable = true
      <;> simp [hab, hc]

/-- Witness for C6 at a concrete vector, thresholds, and feature set. -/
theorem statistical_abnormal_and_finding_witness :
    ((⟨some ⟨3000, 0, 0, 0, 0, 0, 0, 0⟩, none, none, none, true⟩ : FeatureSet).statistical
        = some ⟨3000, 0, 0, 0, 0, 0, 0, 0⟩)
    ∧ ((IsStatisticalAbnormal ⟨3000, 0, 0, 0, 0, 0, 0, 0⟩
          ⟨⟨none, some (1/10), none, none, some 10, none, some (1/1000), none⟩,
           ⟨some 2048, none, some 1024, none, none, none, none, none⟩⟩ = true
        ↔ ∃ i : Fin 8, StrictlyOutside
            (featVals ⟨3000, 0, 0, 0, 0, 0, 0, 0⟩ i)
            (minVals ⟨⟨none, some (1/10), none, none, some 10, none, some (1/1000), none⟩,
              ⟨some 2048, none, some 1024, none, none, none, none, none⟩⟩ i)
            (maxVals ⟨⟨none, some (1/10), none, none, some 10, none, some (1/1000), none⟩,
              ⟨some 2048, none, some 1024, none, none, none, none, none⟩⟩ i))
      ∧ (statisticalAnalyze
            ⟨⟨none, some (1/10), none, none, some 10, none, some (1/1000), none⟩,
             ⟨some 2048, none, some 1024, none, none, none, none, none⟩⟩ [60]
            (some ⟨some ⟨3000, 0, 0, 0, 0, 0, 0, 0⟩, none, none, none, true⟩)
          = if IsStatisticalAbnormal ⟨3000, 0, 0, 0, 0, 0, 0, 0⟩
                ⟨⟨none, some (1/10), none, none, some 10, none, some (1/1000), none⟩,
                 ⟨some 2048, none, some 1024, none, none, none, none, none⟩⟩ = true
              ∧ (⟨some ⟨3000, 0, 0, 0, 0, 0, 0, 0⟩, none, none, none, true⟩ : FeatureSet).callable
                  = true
            then .ok (some statFinding) else .ok none)
      ∧ statFinding.risk = .RiskMedium ∧ statFinding.confidence = 7 / 10) :=
  ⟨rfl, statistical_abnormal_and_finding _ _ _ _ rfl⟩

/- ### The scan engine's per-file lifecycle (src/unnamed/part_002)

`Engine.scanFile` performs stat, size checks, read, AST acquisition,
feature extraction, the analyzer loop, and scoring.  The filesystem
outcomes (`os.Stat`, `ioutil.ReadFile`), the AST bridge, and the feature
extractor live outside this function and are passed as parameters; the
analyzer map of the engine is passed as its iteration order (Go map
iteration order is unspecified) together with the analyzers themselves. -/

/-- The three error shapes `scanFile` can record before analysis. -/
inductive ScanErr where
  | statError (msg : String)
  | sizeExceeded (size : Int) (limit : Int)
  | readError (msg : String)
deriving DecidableEq, Repr

/-- The part of `types.ScanResult` exercised here, extended with the
list of analyzers actually invoked (in invocation order). -/
structure ScanResult where
  error : Option ScanErr
  overallRisk : RiskLevel
  findings : List Finding
  invoked : List String
deriving Repr

/-- An analyzer as the engine sees it: `Name()`, `RequiredFeatures()`,
and `Analyze` (an opaque function of content and features). -/
structure AnalyzerSpec where
  name : String
  required : List String
  analyze : List Nat → FeatureSet → Option Finding

/-- `Engine.canRunAnalyzer`: every required feature key must be present
in the feature set; unknown keys count as missing.  (The Go nil check on
the feature set cannot fire: `scanFile` replaces a nil set by an empty
one before the loop.) -/
def canRunAnalyzer (required : List String) (fs : FeatureSet) : Bool :=
  required.all fun featureKey =>
    match featureKey.toLower with
    | "statistical" => fs.statistical.isSome
    | "ast_words" => fs.astWords.isSome
    | "ast_op_sequence" => fs.astOpSequence.isSome
    | "callable" => true
    | "ast_callable" => true
    | "raw_ast" => fs.rawAst.isSome
    | _ => false

/-- The 10 MiB size limit (`const maxSize = 10 * 1024 * 1024`). -/
def maxSize : Int := 10 * 1024 * 1024

/-- One iteration of the analyzer loop in `scanFile`: skip when the
required features are missing, otherwise invoke and collect. -/
def analyzerStep (content : List Nat) (featureSet : FeatureSet)
    (analyzerOf : String → AnalyzerSpec)
    (acc : List Finding × List String) (name : String) : List Finding × List String :=
  let analyzer := analyzerOf name
  if canRunAnalyzer analyzer.required featureSet then
    match analyzer.analyze content featureSet with
    | some finding => (acc.1 ++ [finding], acc.2 ++ [name])
    | none => (acc.1, acc.2 ++ [name])
  else acc

/-- `Engine.scanFile`.  `statRes` is the `os.Stat` outcome (the size on
success), `readRes` the `ioutil.ReadFile` outcome, `goAST` the bridge's
tree (None when absent or failed; the failure is only logged), `extract`
is `features.ExtractAllFeatures`, and `enabledNames` is the engine's
analyzer-map iteration order.  The source builds `enabledNames` from the
map WITHOUT sorting, although its comment promises a sort. -/
def scanFile (statRes : Except String Int) (readRes : Except String (List Nat))
    (goAST : Option AstVal) (extract : List Nat → Option AstVal → FeatureSet)
    (enabledNames : List String) (analyzerOf : String → AnalyzerSpec) : ScanResult :=
  match statRes with
  | .error e => ⟨some (.statError e), .RiskUnknown, [], []⟩
  | .ok size =>
    if size > maxSize then ⟨some (.sizeExceeded size maxSize), .RiskUnknown, [], []⟩
    else if size = 0 then ⟨none, .RiskNone, [], []⟩
    else
      match readRes with
      | .error e => ⟨some (.readError e), .RiskUnknown, [], []⟩
      | .ok content =>
        let featureSet := extract content goAST
        let res := enabledNames.foldl (analyzerStep content featureSet analyzerOf) ([], [])
        ⟨none, CalculateScore res.1 (some featureSet), res.1, res.2⟩

/-- C7 -- Per-file lifecycle: a stat failure is recorded in the result;
a size above 10 MiB records a size-exceeded error and performs no
scanning; a zero size yields risk None and invokes no analyzer. -/
theorem scanFile_lifecycle (readRes : Except String (List Nat)) (goAST : Option AstVal)
    (extract : List Nat → Option AstVal → FeatureSet)
    (enabledNames : List String) (analyzerOf : String → AnalyzerSpec) :
    (∀ e : String, scanFile (.error e) readRes goAST extract enabledNames analyzerOf
        = ⟨some (.statError e), .RiskUnknown, [], []⟩)
    ∧ (∀ size : Int, size > maxSize →
        scanFile (.ok size) readRes goAST extract enabledNames analyzerOf
          = ⟨some (.sizeExceeded size maxSize), .RiskUnknown, [], []⟩)
    ∧ scanFile (.ok 0) readRes goAST extract enabledNames analyzerOf
        = ⟨none, .RiskNone, [], []⟩ := by
  refine ⟨fun e => rfl, fun size h => ?_, ?_⟩
  · simp only [scanFile]
    rw [if_pos h]
  · simp [scanFile, maxSize]

/-- Witness for C7 at concrete inputs, size 10485761 for the limit. -/
theorem scanFile_lifecycle_witness :
    (scanFile (.error "no such file") (.ok []) none (fun _ _ => ⟨none, none, none, none, false⟩)
        [] (fun n => ⟨n, [], fun _ _ => none⟩)
      = ⟨some (.statError "no such file"), .RiskUnknown, [], []⟩)
    ∧ ((10485761 : Int) > maxSize
        ∧ scanFile (.ok 10485761) (.ok []) none (fun _ _ => ⟨none, none, none, none, false⟩)
            [] (fun n => ⟨n, [], fun _ _ => none⟩)
          = ⟨some (.sizeExceeded 10485761 maxSize), .RiskUnknown, [], []⟩)
    ∧ scanFile (.ok 0) (.ok []) none (fun _ _ => ⟨none, none, none, none, false⟩)
        [] (fun n => ⟨n, [], fun _ _ => none⟩)
      = ⟨none, .RiskNone, [], []⟩ := by
  have h := scanFile_lifecycle (.ok []) none (fun _ _ => ⟨none, none, none, none, false⟩)
    [] (fun n => ⟨n, [], fun _ _ => none⟩)
  exact ⟨h.1 "no such file", ⟨by decide, h.2.1 10485761 (by decide)⟩, h.2.2⟩

/-- C4 -- The analyzer loop of `scanFile` follows the engine map's
iteration order unchanged; with the map iterated as yara before regex (a
legal Go map order) the invocation order is not ascending by name, since
regex sorts before yara. -/
theorem scan_order_follows_map_order :
    (scanFile (.ok 1) (.ok [60]) none (fun _ _ => ⟨none, none, none, none, false⟩)
        ["yara", "regex"] (fun n => ⟨n, [], fun _ _ => none⟩)).invoked = ["yara", "regex"]
    ∧ ¬ List.Sorted (· ≤ ·)
        (scanFile (.ok 1) (.ok [60]) none (fun _ _ => ⟨none, none, none, none, false⟩)
          ["yara", "regex"] (fun n => ⟨n, [], fun _ _ => none⟩)).invoked := by
  constructor
  · rfl
  · intro hs
    have h1 := (List.sorted_cons.mp hs).1 "regex"
    simp at h1
    exact absurd h1 (by decide)

/- ### Operation-sequence cleaning (hash.go, cleanOpSerial / GetOpSerial)

`cleanOpSerial` walks each sequence with an inner cursor loop per block
length (`maxLen` down to 1), deleting the second of two equal adjacent
blocks.  `GetOpSerial` then re-applies the pass while the number of
sequences changes, up to 10 times. -/

/-- The `blockCompare` closure of `cleanOpSerial`. -/
def blockCompare (data : List Int) (i length : Nat) : Bool :=
  if i + 2 * length > data.length then false
  else (List.range length).all fun k =>
    decide (data.getD (i + k) 0 = data.getD (i + length + k) 0)

theorem blockCompare_le {data : List Int} {i L : Nat} (h : blockCompare data i L = true) :
    i + 2 * L ≤ data.length := by
  unfold blockCompare at h
  by_cases hc : i + 2 * L > data.length
  · simp [hc] at h
  · omega

/-- The inner cursor loop of `cleanOpSerial` for one block length: on a
block match delete the second block and stay at `j`, otherwise advance.
The enclosing loop only runs lengths from `maxLen` down to 1, so a
positivity hypothesis accompanies the length. -/
def scanLoop (tmp : List Int) (j : Nat) (length : Nat) (hL : 0 < length) : List Int :=
  if hj : j < tmp.length then
    if hb : blockCompare tmp j length then
      scanLoop (tmp.take j ++ tmp.drop (j + length)) j length hL
    else scanLoop tmp (j + 1) length hL
  else tmp
termination_by 2 * tmp.length - j
decreasing_by
  · have hble := blockCompare_le hb
    simp only [List.length_append, List.length_take, List.length_drop]
    omega
  · omega

/-- The `for length := maxLen; length >= 1; length--` loop of
`cleanOpSerial` over one sequence. -/
def lengthLoop (tmp : List Int) : Nat → List Int
  | 0 => tmp
  | L + 1 => lengthLoop (scanLoop tmp 0 (L + 1) (Nat.succ_pos L)) L

/-- `static.cleanOpSerial`: one cleaned output sequence per input
sequence. -/
def cleanOpSerial (data : List (List Int)) (maxLen : Nat) : List (List Int) :=
  data.map fun v => lengthLoop v maxLen

/-- The re-cleaning loop at the end of `GetOpSerial`
(`for i := 1; i < maxCleanTimes && len(result) != len(cleanedResult); i++`),
instrumented with the number of `cleanOpSerial` applications performed. -/
def cleanIterLoop (i : Nat) (result cleaned : List (List Int)) (apps : Nat) :
    List (List Int) × Nat :=
  if i < 10 ∧ result.length ≠ cleaned.length then
    cleanIterLoop (i + 1) cleaned (cleanOpSerial cleaned 5) (apps + 1)
  else (cleaned, apps)
termination_by 10 - i
decreasing_by omega

/-- The cleaning tail of `GetOpSerial` (maxCleanTimes 10, maxCleanLength
5): the initial application followed by the re-cleaning loop. -/
def getOpSerialClean (result : List (List Int)) : List (List Int) × Nat :=
  cleanIterLoop 1 result (cleanOpSerial result 5) 1

theorem cleanOpSerial_length (data : List (List Int)) (maxLen : Nat) :
    (cleanOpSerial data maxLen).length = data.length := by
  simp [cleanOpSerial]

theorem scanLoop_length_le (tmp : List Int) (j L : Nat) (hL : 0 < L) :
    (scanLoop tmp j L hL).length ≤ tmp.length := by
  induction tmp, j, L, hL using scanLoop.induct with
  | case1 tmp j L hL hj hb ih =>
    rw [scanLoop, dif_pos hj, dif_pos hb]
    refine le_trans ih ?_
    have hble := blockCompare_le hb
    simp only [List.length_append, List.length_take, List.length_drop]
    omega
  | case2 tmp j L hL hj hb ih =>
    rw [scanLoop, dif_pos hj, dif_neg hb]
    exact ih
  | case3 tmp j L hL hj =>
    rw [scanLoop, dif_neg hj]

theorem lengthLoop_length_le (tmp : List Int) (L : Nat) :
    (lengthLoop tmp L).length ≤ tmp.length := by
  induction L generalizing tmp with
  | zero => exact le_refl _
  | succ L ih =>
    exact le_trans (ih (scanLoop tmp 0 (L + 1) (Nat.succ_pos L)))
      (scanLoop_length_le tmp 0 (L + 1) (Nat.succ_pos L))

/-- Because `cleanOpSerial` preserves the sequence count, the loop guard
`len(result) != len(cleanedResult)` is false at its first check: the
pass runs exactly once. -/
theorem getOpSerialClean_eq (result : List (List Int)) :
    getOpSerialClean result = (cleanOpSerial result 5, 1) := by
  unfold getOpSerialClean
  rw [cleanIterLoop]
  rw [if_neg]
  intro h
  exact h.2 (cleanOpSerial_length result 5).symm

/-- C10 (counterexample) -- The iterated-cleaning loop does not stop
after the second application of the pass: on the input `[[1, 1]]` the
pass is applied exactly once. -/
theorem cleanOpSerial_iteration_count_counterexample :
    ¬ (getOpSerialClean [[1, 1]]).2 = 2 := by
  rw [getOpSerialClean_eq]
  decide

/-- C10 (amended) -- `cleanOpSerial` returns exactly one output sequence
per input sequence (the count is preserved and each output is at most as
long as its input), so the iterated-cleaning loop in `GetOpSerial` exits
at its first guard check: the pass is applied exactly once. -/
theorem cleanOpSerial_count_preserved (data : List (List Int)) (maxLen : Nat) :
    (cleanOpSerial data maxLen).length = data.length
    ∧ (∀ i v, data.get? i = some v →
        ∃ w, (cleanOpSerial data maxLen).get? i = some w ∧ w.length ≤ v.length)
    ∧ getOpSerialClean data = (cleanOpSerial data 5, 1) := by
  refine ⟨cleanOpSerial_length data maxLen, ?_, getOpSerialClean_eq data⟩
  intro i v hv
  refine ⟨lengthLoop v maxLen, ?_, lengthLoop_length_le v maxLen⟩
  rw [cleanOpSerial, List.get?_map, hv]
  rfl

/-- Witness for the amended C10 at a concrete input. -/
theorem cleanOpSerial_count_preserved_witness :
    ([[1, 1, 2]] : List (List Int)).get? 0 = some [1, 1, 2]
    ∧ ((cleanOpSerial [[1, 1, 2]] 5).length = 1
        ∧ (∃ w, (cleanOpSerial [[1, 1, 2]] 5).get? 0 = some w ∧ w.length ≤ 3)
        ∧ getOpSerialClean [[1, 1, 2]] = (cleanOpSerial [[1, 1, 2]] 5, 1)) := by
  have h := cleanOpSerial_count_preserved [[1, 1, 2]] 5
  exact ⟨rfl, h.1, h.2.1 0 [1, 1, 2] rfl, h.2.2⟩

/- ### The SVM fusion analyzer (src/internal/analyzers/ml/svm_prosses.go)

Calibration values arrive as JSON decimals, hence `ℚ`; the raw SVM
decision values and the sigmoid are genuinely real-valued, hence `ℝ`.
The libSVM model itself is an external dependency: its
`PredictValues` is a parameter, as are the asset-loading outcomes.  The
Go struct's nil-able `model` pointer becomes the flag `modelLoaded`. -/

/-- `ml.SigmoidParams`. -/
structure SigmoidParams where
  a : ℚ
  b : ℚ
deriving DecidableEq, Repr

/-- `ml.FeatureStats` (nil slices become empty lists). -/
structure FeatureStats where
  mins : List ℚ
  maxs : List ℚ
  means : List ℚ
  stds : List ℚ
deriving DecidableEq, Repr

/-- `ml.ValidationSample`. -/
structure ValidationSample where
  features : List ℚ
  rawDecision : ℚ
  sigmoidScore : ℚ
  expectedClass : String
deriving DecidableEq, Repr

/-- `ml.CalibrationInfo`; the Go `ValidationSamples` map becomes an
association list (its iteration order does not affect the outcome). -/
structure CalibrationInfo where
  featureNames : List String
  numFeatures : Nat
  featureStats : FeatureStats
  sigmoidParams : SigmoidParams
  optimalThreshold : ℚ
  validationSamples : List (String × ValidationSample)
deriving DecidableEq, Repr

/-- The state of `ml.SvmProssesAnalyzer` relevant to validation and
prediction. -/
structure SvmProssesAnalyzer where
  isInitialized : Bool
  modelLoaded : Bool
  calibration : CalibrationInfo
  validationPerformed : Bool
  validationPassed : Bool

/-- The zero value of `CalibrationInfo` before unmarshalling. -/
def emptyCalibration : CalibrationInfo :=
  { featureNames := [], numFeatures := 0, featureStats := ⟨[], [], [], []⟩,
    sigmoidParams := ⟨0, 0⟩, optimalThreshold := 0, validationSamples := [] }

/-- `applySigmoid`: `1 / (1 + exp(-a * (x - b)))` with calibrated a, b. -/
noncomputable def applySigmoid (cal : CalibrationInfo) (rawScore : ℝ) : ℝ :=
  1 / (1 + Real.exp (-(cal.sigmoidParams.a : ℝ) * (rawScore - (cal.sigmoidParams.b : ℝ))))

open Classical in
/-- One iteration of the validation loop in `validateModel`, threading
`(correctCount, totalCount, validationPassed)`. -/
noncomputable def validateSampleStep (cal : CalibrationInfo) (predictValues : List ℚ → List ℝ)
    (st : Nat × Nat × Bool) (sample : ValidationSample) : Nat × Nat × Bool :=
  match predictValues sample.features with
  | [] => st
  | rawScore :: _ =>
    let sigmoidScore := applySigmoid cal rawScore
    let predictedClass := if sigmoidScore ≥ (cal.optimalThreshold : ℝ)
      then "webshell" else "normal"
    if predictedClass = sample.expectedClass then (st.1 + 1, st.2.1 + 1, st.2.2)
    else
      let expectedSignDirection : ℝ := if sample.expectedClass = "normal" then -1 else 1
      let actualSignDirection : ℝ := if rawScore < 0 then -1 else 1
      if expectedSignDirection ≠ actualSignDirection then (st.1, st.2.1 + 1, false)
      else (st.1, st.2.1 + 1, st.2.2)

/-- `SvmProssesAnalyzer.validateModel`.  Its first guard returns when
`isInitialized` is still false or the model pointer is nil. -/
noncomputable def validateModel (s : SvmProssesAnalyzer)
    (predictValues : List ℚ → List ℝ) : SvmProssesAnalyzer :=
  if s.isInitialized = false ∨ s.modelLoaded = false then s
  else
    let s1 := { s with validationPerformed := true }
    if s1.calibration.validationSamples.isEmpty then s1
    else
      let s2 := { s1 with validationPassed := true }
      let r : Nat × Nat × Bool := s2.calibration.validationSamples.foldl
        (fun st kv => validateSampleStep s2.calibration predictValues st kv.2) (0, 0, true)
      let passed := if 0 < r.2.1 ∧ (r.1 : ℚ) / (r.2.1 : ℚ) < 1 / 2 then false else r.2.2
      { s2 with validationPassed := passed }

/-- `ml.NewSvmProssesAnalyzer`: `infoData` is the parsed calibration
JSON (None when both the embedded and the on-disk asset fail to load or
parse), `modelOk` whether `libSvm.NewModelFromFileStream` returned a
model.  The constructor unmarshals the calibration JSON directly and
calls `validateModel` BEFORE setting `isInitialized`. -/
noncomputable def NewSvmProssesAnalyzer (infoData : Option CalibrationInfo) (modelOk : Bool)
    (predictValues : List ℚ → List ℝ) : SvmProssesAnalyzer :=
  let analyzer : SvmProssesAnalyzer :=
    { isInitialized := false, modelLoaded := false, calibration := emptyCalibration,
      validationPerformed := false, validationPassed := false }
  match infoData with
  | none => analyzer
  | some cal =>
    let analyzer1 := { analyzer with calibration := cal }
    if modelOk = false then analyzer1
    else
      let analyzer2 := { analyzer1 with modelLoaded := true }
      let analyzer3 := validateModel analyzer2 predictValues
      { analyzer3 with isInitialized := true }

/-- `SvmProssesAnalyzer.predict`: `result` is the decision-value list
returned by the model's `PredictValues`; the raw score is negated only
when validation was performed and failed. -/
noncomputable def predict (s : SvmProssesAnalyzer) (result : List ℝ) : ℝ × ℝ :=
  if s.modelLoaded = false then (1 / 2, 0)
  else
    match result with
    | [] => (1 / 2, 0)
    | rawScore0 :: _ =>
      let rawScore := if s.validationPerformed = true ∧ s.validationPassed = false
        then -rawScore0 else rawScore0
      (applySigmoid s.calibration rawScore, rawScore)

/-- `SvmProssesAnalyzer.loadCalibrationInfo`: the guarded loader carrying
the incomplete-statistics, `a = 0`, and threshold checks.  No call site
exists in the repository; the constructor unmarshals directly. -/
def loadCalibrationInfo (s : SvmProssesAnalyzer) (cal : CalibrationInfo) :
    Except String SvmProssesAnalyzer :=
  if cal.featureNames.isEmpty ∨ cal.numFeatures = 0 then
    .error "incomplete calibration: feature names or count missing"
  else
    let cal1 := if cal.sigmoidParams.a = 0
      then { cal with sigmoidParams := ⟨1, cal.sigmoidParams.b⟩ } else cal
    let cal2 := if cal1.optimalThreshold ≤ 0 ∨ 1 ≤ cal1.optimalThreshold
      then { cal1 with optimalThreshold := 1 / 2 } else cal1
    if cal2.featureStats.means.length < cal2.numFeatures then
      .error "incomplete feature stats: means missing"
    else if cal2.featureStats.stds.length < cal2.numFeatures then
      .error "incomplete feature stats: stds missing"
    else .ok { s with calibration := cal2 }

/-- C2 -- The startup validation is dead code: `validateModel` is called
while `isInitialized` is still false, so its guard returns immediately.
For every successfully loaded calibration and model, the constructed
analyzer has `validationPerformed = false`, the decision-direction
reversal flag can never be observed, and every later prediction applies
the sigmoid to the raw decision value unchanged (never negated). -/
theorem svm_validation_never_runs (cal : CalibrationInfo)
    (predictValues : List ℚ → List ℝ) :
    (NewSvmProssesAnalyzer (some cal) true predictValues).validationPerformed = false
    ∧ (NewSvmProssesAnalyzer (some cal) true predictValues).validationPassed = false
    ∧ (NewSvmProssesAnalyzer (some cal) true predictValues).isInitialized = true
    ∧ (NewSvmProssesAnalyzer (some cal) true predictValues).calibration = cal
    ∧ ∀ (r : ℝ) (rest : List ℝ),
        predict (NewSvmProssesAnalyzer (some cal) true predictValues) (r :: rest)
          = (applySigmoid cal r, r) := by
  have hconstr : NewSvmProssesAnalyzer (some cal) true predictValues
      = { isInitialized := true, modelLoaded := true, calibration := cal,
          validationPerformed := false, validationPassed := false } := by
    unfold NewSvmProssesAnalyzer validateModel
    simp
  refine ⟨by rw [hconstr], by rw [hconstr], by rw [hconstr], by rw [hconstr], ?_⟩
  intro r rest
  rw [hconstr]
  unfold predict
  simp

/-- C3 -- The init-time calibration guards are dead code: the constructor
parses the calibration JSON directly and never calls
`loadCalibrationInfo`.  At a calibration with `a = 0`, threshold 2 and
empty per-feature statistics, the constructed analyzer keeps `a = 0` and
threshold 2 and still becomes active, although `loadCalibrationInfo`
would have rejected those statistics as incomplete. -/
theorem svm_calibration_guards_dead (predictValues : List ℚ → List ℝ) :
    (NewSvmProssesAnalyzer
        (some ⟨["LM", "LVC", "WM", "WVC", "SR", "TR", "SPL", "IE", "BAYES"], 9,
          ⟨[], [], [], []⟩, ⟨0, 0⟩, 2, []⟩) true predictValues).calibration.sigmoidParams.a = 0
    ∧ (NewSvmProssesAnalyzer
        (some ⟨["LM", "LVC", "WM", "WVC", "SR", "TR", "SPL", "IE", "BAYES"], 9,
          ⟨[], [], [], []⟩, ⟨0, 0⟩, 2, []⟩) true predictValues).calibration.optimalThreshold = 2
    ∧ (NewSvmProssesAnalyzer
        (some ⟨["LM", "LVC", "WM", "WVC", "SR", "TR", "SPL", "IE", "BAYES"], 9,
          ⟨[], [], [], []⟩, ⟨0, 0⟩, 2, []⟩) true predictValues).isInitialized = true
    ∧ loadCalibrationInfo
        ⟨false, false, emptyCalibration, false, false⟩
        ⟨["LM", "LVC", "WM", "WVC", "SR", "TR", "SPL", "IE", "BAYES"], 9,
          ⟨[], [], [], []⟩, ⟨0, 0⟩, 2, []⟩
      = .error "incomplete feature stats: means missing" := by
  have hconstr := svm_validation_never_runs
    ⟨["LM", "LVC", "WM", "WVC", "SR", "TR", "SPL", "IE", "BAYES"], 9,
      ⟨[], [], [], []⟩, ⟨0, 0⟩, 2, []⟩ predictValues
  refine ⟨?_, ?_, hconstr.2.2.1, ?_⟩
  · rw [hconstr.2.2.2.1]
  · rw [hconstr.2.2.2.1]
  · unfold loadCalibrationInfo
    simp

/- ### SR and IE statistical features (src/internal/features/extractor.go)

`CalculateStatisticalFeatures` converts the file bytes to a Go string
and the feature functions iterate it with `range` / `regexp`, both of
which decode UTF-8 RUNES (an invalid byte decodes to U+FFFD and advances
one byte) rather than raw bytes.  `decodeRunes` embeds exactly that
decoding (Go `unicode/utf8`: second-byte accept ranges depend on the
lead byte; surrogates and overlong forms are invalid).  Byte and rune
values are `Nat` (Go runes are non-negative here, so the source's
`0 <= chr` guard is implicit). -/

/-- Lower accept bound of the second byte for a given lead byte. -/
def utf8Lo (b : Nat) : Nat :=
  if b = 0xE0 then 0xA0 else if b = 0xF0 then 0x90 else 0x80

/-- Upper accept bound of the second byte for a given lead byte. -/
def utf8Hi (b : Nat) : Nat :=
  if b = 0xED then 0x9F else if b = 0xF4 then 0x8F else 0xBF

/-- Number of continuation bytes demanded by a non-ASCII lead byte
(0 for an invalid lead). -/
def contCount (b : Nat) : Nat :=
  if b < 0xC2 then 0 else if b < 0xE0 then 1 else if b < 0xF0 then 2
  else if b < 0xF5 then 3 else 0

/-- The continuation bytes are acceptable for the lead byte `b`. -/
def validCont (b : Nat) (conts : List Nat) : Bool :=
  match conts with
  | [] => false
  | c :: cs => (utf8Lo b ≤ c && c ≤ utf8Hi b) && cs.all fun x => 0x80 ≤ x && x ≤ 0xBF

/-- The rune value assembled from a lead byte and its continuations. -/
def runeOf (b : Nat) (conts : List Nat) : Nat :=
  let lead := if b < 0xE0 then b - 0xC0 else if b < 0xF0 then b - 0xE0 else b - 0xF0
  conts.foldl (fun acc c => acc * 0x40 + (c - 0x80)) lead

/-- Go's `for range` over a string built from these bytes: each ASCII
byte is its own rune; a valid multi-byte sequence is one rune; any
invalid byte yields U+FFFD and advances one byte. -/
def decodeRunes (bs : List Nat) : List Nat :=
  match bs with
  | [] => []
  | b :: rest =>
    if b < 0x80 then b :: decodeRunes rest
    else
      let n := contCount b
      if n = 0 ∨ rest.length < n ∨ validCont b (rest.take n) = false then
        0xFFFD :: decodeRunes rest
      else
        runeOf b (rest.take n) :: decodeRunes (rest.drop n)
termination_by bs.length
decreasing_by
  · simp
  · simp
  · simp only [List.length_cons, List.length_drop]
    omega

/-- ASCII alphanumeric test: the character classes of the source's
`[^a-zA-Z0-9]` regex and of `statWords`. -/
def isAlnumByte (c : Nat) : Bool :=
  (0x30 ≤ c && c ≤ 0x39) || (0x41 ≤ c && c ≤ 0x5A) || (0x61 ≤ c && c ≤ 0x7A)

/-- `features.roundToSix`.  Go `math.Round` rounds half away from zero;
Mathlib's `round` rounds half up — they agree on the non-negative values
produced by the eight features. -/
noncomputable def roundToSix (value : ℝ) : ℝ := round (value * 10 ^ 6) / 10 ^ 6

/-- `features.symbolRatio`: `regexp` counts the runes of the decoded
string outside `[a-zA-Z0-9]`, while `len(src)` counts bytes. -/
noncomputable def symbolRatio (content : List Nat) : ℝ :=
  if content.length = 0 then 0
  else (((decodeRunes content).countP fun c => !(isAlnumByte c)) : ℝ)
    / (content.length : ℝ) * 100

/-- `features.infomationEntropy`: the histogram loop ranges over the
decoded runes, keeping those `< 256` other than the newline. -/
noncomputable def infomationEntropy (content : List Nat) : ℝ :=
  let counted := (decodeRunes content).filter (fun c => decide (c < 256) && decide (c ≠ 10));
  -(∑ i ∈ Finset.range 256,
    if 0 < counted.count i then
      ((counted.count i : ℝ) / (counted.length : ℝ))
        * Real.logb 2 ((counted.count i : ℝ) / (counted.length : ℝ))
    else 0)

/-- The stored feature `sf.SR` of `CalculateStatisticalFeatures`. -/
noncomputable def featureSR (content : List Nat) : ℝ := roundToSix (symbolRatio content)

/-- The stored feature `sf.IE` of `CalculateStatisticalFeatures`. -/
noncomputable def featureIE (content : List Nat) : ℝ := roundToSix (infomationEntropy content)

/-- Spec-side SR: percentage of non-alphanumeric BYTES over total
bytes. -/
noncomputable def specSymbolRatio (content : List Nat) : ℝ :=
  ((content.countP fun b => !(isAlnumByte b)) : ℝ) / (content.length : ℝ) * 100

/-- Spec-side IE: Shannon entropy (base 2) over the BYTES in [0, 255]
excluding newline bytes. -/
noncomputable def specEntropy (content : List Nat) : ℝ :=
  let counted := content.filter (fun b => decide (b ≠ 10));
  -(∑ i ∈ Finset.range 256,
    if 0 < counted.count i then
      ((counted.count i : ℝ) / (counted.length : ℝ))
        * Real.logb 2 ((counted.count i : ℝ) / (counted.length : ℝ))
    else 0)

/-- On ASCII input the Go rune decoding is the identity. -/
theorem decodeRunes_ascii (bs : List Nat) (h : ∀ b ∈ bs, b < 0x80) : decodeRunes bs = bs := by
  induction bs with
  | nil => simp [decodeRunes]
  | cons b rest ih =>
    have hb : b < 0x80 := h b (List.mem_cons_self b rest)
    rw [decodeRunes]
    rw [if_pos hb, ih (fun x hx => h x (List.mem_cons_of_mem b hx))]

/-- C8 (counterexample) -- On the two-byte content 0xC3 0xA9 (a valid
UTF-8 sequence for U+00E9) the stored SR is 50, not the byte percentage
100: the regex counts one non-alphanumeric rune over two bytes. -/
theorem sr_not_byte_percentage :
    featureSR [195, 169] ≠ roundToSix (specSymbolRatio [195, 169]) := by
  have hd : decodeRunes [195, 169] = [233] := by
    rw [decodeRunes]
    norm_num [contCount, validCont, utf8Lo, utf8Hi, runeOf, decodeRunes]
  unfold featureSR symbolRatio specSymbolRatio roundToSix
  rw [hd]
  norm_num [List.countP_cons, List.countP_nil, isAlnumByte]

/-- C8 (amended) -- For every non-empty byte content consisting of ASCII
bytes (< 0x80), the statistical feature SR equals the percentage of
non-alphanumeric bytes over total bytes, and IE equals the Shannon
entropy (base 2) over the bytes in [0, 255] excluding newline bytes,
both rounded to 6 decimals.  (On non-ASCII content both features range
over decoded UTF-8 runes instead of bytes.) -/
theorem sr_ie_match_spec_on_ascii (content : List Nat) (hne : content ≠ [])
    (hascii : ∀ b ∈ content, b < 0x80) :
    featureSR content = roundToSix (specSymbolRatio content)
    ∧ featureIE content = roundToSix (specEntropy content) := by
  have hdec := decodeRunes_ascii content hascii
  have hfilter : (content.filter fun c => decide (c < 256) && decide (c ≠ 10))
      = content.filter fun b => decide (b ≠ 10) := by
    apply List.filter_congr
    intro b hb
    have hlt : b < 256 := lt_trans (hascii b hb) (by norm_num)
    simp [hlt]
  constructor
  · unfold featureSR symbolRatio specSymbolRatio
    rw [if_neg (fun h0 => hne (List.length_eq_zero.mp h0)), hdec]
  · unfold featureIE infomationEntropy specEntropy
    rw [hdec, hfilter]

/-- Witness for the amended C8 at the ASCII content `<?;\n`. -/
theorem sr_ie_match_spec_on_ascii_witness :
    (([60, 63, 59, 10] : List Nat) ≠ [] ∧ ∀ b ∈ ([60, 63, 59, 10] : List Nat), b < 0x80)
    ∧ (featureSR [60, 63, 59, 10] = roundToSix (specSymbolRatio [60, 63, 59, 10])
        ∧ featureIE [60, 63, 59, 10] = roundToSix (specEntropy [60, 63, 59, 10])) :=
  ⟨⟨by decide, by decide⟩,
    sr_ie_match_spec_on_ascii [60, 63, 59, 10] (by decide) (by decide)⟩
